import Mathlib

set_option maxRecDepth 10000

/-!
Verification development for the beehiiv post-extraction pipeline
(`beehiiv-retrieve-posts.py`).

The development shallowly embeds the pure core of the script:

* `extract_json_ld`, `extract_remix_context`, `extract_authors`,
  `extract_tags` — structured-metadata extraction from embedded script
  blocks (JSON values are modelled by the inductive `Json`; the results of
  the library call `json.loads` are supplied as `Option Json`, `none`
  standing for a parse failure);
* `clean_content` and its individual removal passes over an HTML tree
  model (`Node`), mirroring the BeautifulSoup tree mutations of the
  source as pure tree transformations driven by child-index paths;
* `fetch_post` (the pure extraction part, after the network fetch),
  `rewrite_content_images`, and the front-matter construction of
  `post_to_markdown`.

Python dynamic behaviour is modelled explicitly: `dict.get` on a
non-dict raises `AttributeError`, which is represented by
`Except Unit`; Python truthiness is the function `truthy`.
-/

namespace Beehiiv

/-! ### Python-style string primitives (on `List Char`) -/

/-- Characters stripped by Python `str.strip()` and matched by the regex
class `\s` (the ASCII whitespace characters plus the no-break space,
which covers every character appearing in this development). -/
def isPySpace (c : Char) : Bool :=
  c == ' ' || c == '\t' || c == '\n' || c == '\r' || c == '\x0b' ||
    c == '\x0c' || c == Char.ofNat 160

/-- Python `str.strip()`: drop leading and trailing whitespace. -/
def pyStripL (cs : List Char) : List Char :=
  ((cs.dropWhile isPySpace).reverse.dropWhile isPySpace).reverse

/-- Lower-case a character list (models `re.IGNORECASE` matching and
`str.lower()`; the patterns of the source are ASCII). -/
def lowerL (cs : List Char) : List Char :=
  cs.map Char.toLower

/-- Containment of `needle` as a contiguous substring of `hay`
(Python `needle in hay`). -/
def hasSub (needle : List Char) : List Char → Bool
  | [] => needle.isEmpty
  | c :: rest => needle.isPrefixOf (c :: rest) || hasSub needle rest

/-- String-level substring test, case sensitive (Python `t in src`). -/
def sContains (hay needle : String) : Bool :=
  hasSub needle.data hay.data

/-- Case-insensitive substring test (a plain-text regex under `re.I`). -/
def containsCI (hay : List Char) (needle : String) : Bool :=
  hasSub needle.data (lowerL hay)

/-- Try to consume the literal `w` at the front of `cs`, returning the
remainder (one step of a regex literal, input already lower-cased). -/
def lit? (w : String) (cs : List Char) : Option (List Char) :=
  if w.data.isPrefixOf cs then some (cs.drop w.data.length) else none

/-- Consume one-or-more whitespace characters (regex `\s+`).  Every
pattern of the source follows `\s+` with a non-space literal, so the
maximal munch below is equivalent to the backtracking regex. -/
def ws1? (cs : List Char) : Option (List Char) :=
  match cs with
  | [] => none
  | c :: rest => if isPySpace c then some (rest.dropWhile isPySpace) else none

/-- Run a position matcher at every suffix (regex `re.search`). -/
def searchPos (m : List Char → Bool) : List Char → Bool
  | [] => m []
  | c :: rest => m (c :: rest) || searchPos m rest

/-! ### The regex patterns of `clean_content`, as positional matchers.
All matchers receive the raw text and lower-case it, mirroring `re.I`. -/

/-- Regex `share\s+(this|post|article)` at a position. -/
def shareAt (cs : List Char) : Bool :=
  match lit? "share" cs with
  | none => false
  | some r1 =>
    match ws1? r1 with
    | none => false
    | some r2 =>
      (lit? "this" r2).isSome || (lit? "post" r2).isSome ||
        (lit? "article" r2).isSome

/-- Regex `read\s+(this\s+)?(online|in\s+browser|in\s+your\s+browser)`
at a position. -/
def readAt (cs : List Char) : Bool :=
  match lit? "read" cs with
  | none => false
  | some r1 =>
    match ws1? r1 with
    | none => false
    | some r2 =>
      let tail := fun (r : List Char) =>
        (lit? "online" r).isSome ||
        (match lit? "in" r with
         | none => false
         | some r3 =>
           match ws1? r3 with
           | none => false
           | some r4 =>
             (lit? "browser" r4).isSome ||
             (match lit? "your" r4 with
              | none => false
              | some r5 =>
                match ws1? r5 with
                | none => false
                | some r6 => (lit? "browser" r6).isSome))
      (match lit? "this" r2 with
       | none => false
       | some r3 =>
         match ws1? r3 with
         | none => false
         | some r4 => tail r4) || tail r2

/-- Regex `forward(ed)?\s+this` at a position. -/
def forwardAt (cs : List Char) : Bool :=
  match lit? "forward" cs with
  | none => false
  | some r1 =>
    let tail := fun (r : List Char) =>
      match ws1? r with
      | none => false
      | some r2 => (lit? "this" r2).isSome
    (match lit? "ed" r1 with
     | none => false
     | some r2 => tail r2) || tail r1

/-- The five `boilerplate_patterns` of `clean_content`, applied to the
visible text of an anchor: `subscribe`, `unsubscribe`,
`share\s+(this|post|article)`, the read-online pattern, and
`forward(ed)?\s+this`, all under `re.I`. -/
def anyBoilerLink (cs : List Char) : Bool :=
  let l := lowerL cs
  containsCI cs "subscribe" || containsCI cs "unsubscribe" ||
    searchPos shareAt l || searchPos readAt l || searchPos forwardAt l

/-- Regex `whenever you.re ready` at a position (`.` is any character
other than a newline). -/
def wheneverAt (cs : List Char) : Bool :=
  match lit? "whenever you" cs with
  | none => false
  | some r1 =>
    match r1 with
    | [] => false
    | c :: r2 => c != '\n' && (lit? "re ready" r2).isSome

/-- Regex `ways? (we|I) can help you` at a position. -/
def waysAt (cs : List Char) : Bool :=
  match lit? "way" cs with
  | none => false
  | some r1 =>
    let tail := fun (r : List Char) =>
      match lit? " " r with
      | none => false
      | some r2 =>
        (match lit? "we" r2 with
         | none => false
         | some r3 => (lit? " can help you" r3).isSome) ||
        (match lit? "i" r2 with
         | none => false
         | some r3 => (lit? " can help you" r3).isSome)
    (match lit? "s" r1 with
     | none => false
     | some r2 => tail r2) || tail r1

/-- Regex `what did you think of (today|this)` at a position. -/
def whatThinkAt (cs : List Char) : Bool :=
  match lit? "what did you think of " cs with
  | none => false
  | some r => (lit? "today" r).isSome || (lit? "this" r).isSome

/-- Regex `how did you like (today|this)` at a position. -/
def howLikeAt (cs : List Char) : Bool :=
  match lit? "how did you like " cs with
  | none => false
  | some r => (lit? "today" r).isSome || (lit? "this" r).isSome

/-- Regex `join \d[\d,]* (readers|subscribers|others)` at a position. -/
def joinAt (cs : List Char) : Bool :=
  match lit? "join " cs with
  | none => false
  | some r1 =>
    match r1 with
    | [] => false
    | c :: r2 =>
      c.isDigit &&
        (let r3 := r2.dropWhile (fun d => d.isDigit || d == ',')
         match lit? " " r3 with
         | none => false
         | some r4 =>
           (lit? "readers" r4).isSome || (lit? "subscribers" r4).isSome ||
             (lit? "others" r4).isSome)

/-- The five `footer_patterns` of `clean_content`, each applied to the
content of one text node (bs4 `find_all(string=pattern)`). -/
def footerPatterns : List (String → Bool) :=
  [ fun s => searchPos wheneverAt (lowerL s.data)
  , fun s => searchPos waysAt (lowerL s.data)
  , fun s => searchPos whatThinkAt (lowerL s.data)
  , fun s => searchPos howLikeAt (lowerL s.data)
  , fun s => searchPos joinAt (lowerL s.data) ]

/-- Disjunction of the five footer patterns on one text-node string. -/
def anyFooterText (s : String) : Bool :=
  footerPatterns.any (fun p => p s)

/-- Regex `display\s*:\s*none` under `re.I` (the hidden-element pass). -/
def styleHiddenAt (cs : List Char) : Bool :=
  match lit? "display" cs with
  | none => false
  | some r1 =>
    let r2 := r1.dropWhile isPySpace
    match lit? ":" r2 with
    | none => false
    | some r3 => (lit? "none" (r3.dropWhile isPySpace)).isSome

/-- Style attribute match of the hidden-element pass. -/
def styleHidden (v : String) : Bool :=
  searchPos styleHiddenAt (lowerL v.data)

/-- The tracking-source substrings of the tracking-pixel pass
(`any(t in src for t in [...])`, case sensitive). -/
def trackingSrc (src : String) : Bool :=
  ["open.substack.com", "pixel", "track", "beacon",
    "email-analytics", "/o/", "sp.beehiiv.com"].any
    (fun t => sContains src t)

/-- Regex `(cta|footer|divider).*\.(png|jpg|gif)` under `re.I`: after a
keyword, scan forward over non-newline characters for a dot extension. -/
def ctaTail : List Char → Bool
  | [] => false
  | c :: rest =>
    (lit? ".png" (c :: rest)).isSome || (lit? ".jpg" (c :: rest)).isSome ||
      (lit? ".gif" (c :: rest)).isSome || (c != '\n' && ctaTail rest)

/-- One keyword alternative of the footer-image regex. -/
def ctaKw (w : String) (cs : List Char) : Bool :=
  match lit? w cs with
  | none => false
  | some r => ctaTail r

/-- Footer/CTA image source match of `clean_content`. -/
def ctaImgSrc (src : String) : Bool :=
  searchPos (fun cs => ctaKw "cta" cs || ctaKw "footer" cs || ctaKw "divider" cs)
    (lowerL src.data)

/-- Referral-program marker search (`re.compile(r"\{\{rp_")` on a text
node; the braces of the marker are literal characters). -/
def rpMarker (s : String) : Bool :=
  sContains s "\x7b\x7brp_"

/-! ### JSON values and Python dictionary semantics -/

/-- A parsed JSON value (the result of a successful `json.loads`).
Python `None` is `null`; numbers are modelled by integers, which is
enough for every behaviour the source inspects. -/
inductive Json where
  | null
  | bool (b : Bool)
  | num (n : Int)
  | str (s : String)
  | arr (xs : List Json)
  | obj (fields : List (String × Json))

/-- Lookup in a JSON object's field list (Python dict keys are unique
and iterate in insertion order, so an association-list lookup is
faithful). -/
def jlookup (fields : List (String × Json)) (k : String) : Option Json :=
  (fields.find? (fun kv => kv.1 == k)).map (fun kv => kv.2)

/-- Python truthiness of a JSON value. -/
def truthy : Json → Bool
  | .null => false
  | .bool b => b
  | .num n => n != 0
  | .str s => s != ""
  | .arr xs => !xs.isEmpty
  | .obj fs => !fs.isEmpty

/-- Python `a or b` on JSON values. -/
def pyOr (a b : Json) : Json :=
  if truthy a then a else b

/-- Python `x.get(k)`: returns `None` for a missing key, raises
`AttributeError` when `x` is not a dict. -/
def pyGet (j : Json) (k : String) : Except Unit Json :=
  match j with
  | .obj fs => .ok ((jlookup fs k).getD .null)
  | _ => .error ()

/-- Python `x.get(k, d)` with a default, raising on a non-dict. -/
def pyGetD (j : Json) (k : String) (d : Json) : Except Unit Json :=
  match j with
  | .obj fs => .ok ((jlookup fs k).getD d)
  | _ => .error ()

/-- Total variant of `pyGet` used in theorem statements; it agrees with
`pyGet` on dicts. -/
def getJ (j : Json) (k : String) : Json :=
  match j with
  | .obj fs => (jlookup fs k).getD .null
  | _ => .null

/-- Inject an optional string (e.g. a meta-tag content attribute) into
the Python value domain. -/
def optStrJson : Option String → Json
  | none => .null
  | some s => .str s

/-! ### `extract_json_ld` -/

/-- The `isinstance(item, dict) and item.get("@type") in ("Article",
"NewsArticle", "BlogPosting")` test of `extract_json_ld`. -/
def isArticleType (j : Json) : Bool :=
  match j with
  | .obj fs =>
    match (jlookup fs "@type").getD .null with
    | .str s => s == "Article" || s == "NewsArticle" || s == "BlogPosting"
    | _ => false
  | _ => false

/-- The inner `for item in data` loop of `extract_json_ld`. -/
def findArticle : List Json → Option Json
  | [] => none
  | it :: rest => if isArticleType it then some it else findArticle rest

/-- `extract_json_ld`: scan the JSON-LD script blocks (each given as the
result of `json.loads`, `none` on a `JSONDecodeError`/`TypeError`) and
return the selection from the first block that parses, or `{}`. -/
def extract_json_ld : List (Option Json) → Json
  | [] => .obj []
  | none :: rest => extract_json_ld rest
  | some d :: _ =>
    match d with
    | .arr items =>
      match findArticle items with
      | some it => it
      | none =>
        match items with
        | [] => .obj []
        | x :: _ => x
    | _ => d

/-! ### `extract_remix_context`, `extract_authors`, `extract_tags` -/

/-- `extract_remix_context`: the outermost balanced JSON object assigned
to `window.__remixContext`, already parsed (`none` when no script
matches or `json.loads` fails); a failure yields `{}`.  A successful
parse of the captured `\x7b...\x7d` group is necessarily an object,
hence the field-list representation. -/
def extract_remix_context (ctx : Option (List (String × Json))) : Json :=
  .obj (ctx.getD [])

/-- The author-collection loop of `extract_authors`: appends each
truthy `author.get("name") or author.get("display_name")`; a non-dict
entry raises `AttributeError`, which the enclosing handler turns into
returning the names collected so far. -/
def collectAuthorNames : List Json → List Json → List Json
  | [], acc => acc
  | .obj afs :: rest, acc =>
    let name := pyOr ((jlookup afs "name").getD .null)
      ((jlookup afs "display_name").getD .null)
    collectAuthorNames rest (if truthy name then acc ++ [name] else acc)
  | _ :: _, acc => acc

/-- The tag-collection loop of `extract_tags` (name field only). -/
def collectTagNames : List Json → List Json → List Json
  | [], acc => acc
  | .obj tfs :: rest, acc =>
    let name := (jlookup tfs "name").getD .null
    collectTagNames rest (if truthy name then acc ++ [name] else acc)
  | _ :: _, acc => acc

/-- Shared route-entry selection of `extract_authors`/`extract_tags`:
`loader_data = ctx.get("state", \x7b\x7d).get("loaderData", \x7b\x7d)`, then the
first key containing `"p/"` (the test `"p/$slug" in key or "p/" in key`
reduces to the latter), reading `post_data.get("post", post_data)`.
Every `AttributeError`/`TypeError` on the way is caught by the source
and yields `none` here. -/
def remixPostObject (remix : Json) : Option Json :=
  match remix with
  | .obj fs0 =>
    match (jlookup fs0 "state").getD (.obj []) with
    | .obj sfs =>
      match (jlookup sfs "loaderData").getD (.obj []) with
      | .obj lfs =>
        match lfs.find? (fun kv => sContains kv.1 "p/") with
        | none => none
        | some kv =>
          match kv.2 with
          | .obj pfs => some ((jlookup pfs "post").getD (.obj pfs))
          | _ => none
      | _ => none
    | _ => none
  | _ => none

/-- `extract_authors` on the remix context. -/
def extract_authors (remix : Json) : List Json :=
  match remixPostObject remix with
  | none => []
  | some postObj =>
    match postObj with
    | .obj pofs =>
      match (jlookup pofs "authors").getD (.arr []) with
      | .arr items => collectAuthorNames items []
      | _ => []
    | _ => []

/-- `extract_tags` on the remix context. -/
def extract_tags (remix : Json) : List Json :=
  match remixPostObject remix with
  | none => []
  | some postObj =>
    match postObj with
    | .obj pofs =>
      match (jlookup pofs "content_tags").getD (.arr []) with
      | .arr items => collectTagNames items []
      | _ => []
    | _ => []

/-! ### The HTML tree model

A BeautifulSoup subtree is a tree of element tags (with attributes) and
navigable strings.  `clean_content` receives the `#content-blocks`
element; it is modelled as the root of a standalone tree, so the root
plays the role of `soup_content` and has no parent.  Tree mutations of
the source (`decompose`, sibling removal) become pure rebuilding
operations addressed by child-index paths from the root; the
`find_all` snapshots of the source become path lists computed before a
pass runs, later paths being adjusted or invalidated by each removal
exactly as the corresponding bs4 nodes are shifted or detached. -/

inductive Node where
  | text (s : String)
  | elem (tag : String) (attrs : List (String × String)) (children : List Node)

/-- Attribute lookup (`el.get(k)`; bs4 attribute names are unique per
tag, first match). -/
def getAttr : List (String × String) → String → Option String
  | [], _ => none
  | (k0, v0) :: rest, k =>
    match k0 == k with
    | true => some v0
    | false => getAttr rest k

/-- Attribute lookup with default (`el.get(k, d)`). -/
def getAttrD (attrs : List (String × String)) (k d : String) : String :=
  (getAttr attrs k).getD d

/-- Attributes of a node (a text node has none). -/
def Node.attrsOf : Node → List (String × String)
  | .text _ => []
  | .elem _ a _ => a

mutual
/-- Characters of `n.get_text(strip=True)`: every descendant string,
stripped, concatenated in document order. -/
def nodeTextL : Node → List Char
  | .text s => pyStripL s.data
  | .elem _ _ cs => nodesTextL cs
/-- Text characters of a forest of siblings. -/
def nodesTextL : List Node → List Char
  | [] => []
  | c :: cs => nodeTextL c ++ nodesTextL cs
end

mutual
/-- Whether an element with a media tag occurs in a node or below
(`p.find(["img", "video", "iframe"])` searches descendants). -/
def hasMediaN : Node → Bool
  | .text _ => false
  | .elem t _ cs => t == "img" || t == "video" || t == "iframe" || hasMediaL cs
/-- Media search over a forest. -/
def hasMediaL : List Node → Bool
  | [] => false
  | c :: cs => hasMediaN c || hasMediaL cs
end

/-- Number of element (non-string) children in a child list — the
`[c for c in node.parent.children if hasattr(c, "name") and c.name]`
count of the footer pass. -/
def elemCountL : List Node → Nat
  | [] => 0
  | .elem _ _ _ :: cs => 1 + elemCountL cs
  | .text _ :: cs => elemCountL cs

/-- Node addressed by a child-index path from the root (`[]` is the
root itself). -/
def getAt : Node → List Nat → Option Node
  | n, [] => some n
  | .text _, _ :: _ => none
  | .elem _ _ cs, i :: rest =>
    match cs[i]? with
    | some c => getAt c rest
    | none => none

/-- Stripped text of the node at a path (empty when the path is dead). -/
def textAt (t : Node) (p : List Nat) : List Char :=
  match getAt t p with
  | some n => nodeTextL n
  | none => []

/-- Element-child count of the node at a path. -/
def elemCountAt (t : Node) (p : List Nat) : Nat :=
  match getAt t p with
  | some (.elem _ _ cs) => elemCountL cs
  | _ => 0

/-- Replace the `i`-th entry of a child list by `f` applied to it. -/
def modifyChild (f : Node → Node) : List Node → Nat → List Node
  | [], _ => []
  | c :: cs, 0 => f c :: cs
  | c :: cs, i + 1 => c :: modifyChild f cs i

/-- Drop the `i`-th entry of a child list. -/
def eraseChild : List Node → Nat → List Node
  | [], _ => []
  | _ :: cs, 0 => cs
  | c :: cs, i + 1 => c :: eraseChild cs i

/-- `decompose` of the node at a (nonempty) path: remove it and its
subtree from its parent's child list. -/
def removeAt : Node → List Nat → Node
  | n, [] => n
  | .text s, _ :: _ => .text s
  | .elem t a cs, [i] => .elem t a (eraseChild cs i)
  | .elem t a cs, i :: j :: rest =>
    .elem t a (modifyChild (fun c => removeAt c (j :: rest)) cs i)

/-- Remove the `k`-th child of the node at path `p` together with all
its following siblings (the footer pass's `node` plus
`node.next_sibling` chain). -/
def truncateAt : Node → List Nat → Nat → Node
  | .text s, _, _ => .text s
  | .elem t a cs, [], k => .elem t a (cs.take k)
  | .elem t a cs, i :: rest, k =>
    .elem t a (modifyChild (fun c => truncateAt c rest k) cs i)

/-- Effect of `removeAt r` on another path `q`: `none` when the node at
`q` was detached, otherwise its (possibly shifted) new path. -/
def adjustDel : List Nat → List Nat → Option (List Nat)
  | [], _ => none
  | [_], [] => some []
  | [i], j :: qrest =>
    if j == i then none
    else if i < j then some ((j - 1) :: qrest) else some (j :: qrest)
  | _ :: _ :: _, [] => some []
  | i :: rrest1 :: rrest2, j :: qrest =>
    if j == i then (adjustDel (rrest1 :: rrest2) qrest).map (fun q => j :: q)
    else some (j :: qrest)

/-- Effect of `truncateAt p k` on another path `q`. -/
def adjustTrunc : List Nat → Nat → List Nat → Option (List Nat)
  | [], _, [] => some []
  | [], k, j :: qrest => if k ≤ j then none else some (j :: qrest)
  | _ :: _, _, [] => some []
  | i :: prest, k, j :: qrest =>
    if j == i then (adjustTrunc prest k qrest).map (fun q => j :: q)
    else some (j :: qrest)

/-- Fuelled worklist runner; the fuel is the length of the initial
snapshot, which bounds the recursion because each step only drops or
keeps the remaining paths. -/
def runStepsF (step : Node → List Nat → Node × (List Nat → Option (List Nat))) :
    Nat → Node → List (List Nat) → Node
  | _, t, [] => t
  | 0, t, _ :: _ => t
  | fuel + 1, t, q :: qs =>
    let r := step t q
    runStepsF step fuel r.1 (qs.filterMap r.2)

/-- Run a pass over a snapshot of paths: each step returns the updated
tree and the path adjustment induced by its removal (dead paths are
dropped, mirroring bs4 iteration over already-detached nodes, which the
source skips harmlessly). -/
def runSteps (step : Node → List Nat → Node × (List Nat → Option (List Nat)))
    (t : Node) (qs : List (List Nat)) : Node :=
  runStepsF step qs.length t qs

mutual
/-- Paths (relative to an enclosing parent, entries prefixed by the
node's index `i`) of text nodes satisfying `p`, in document order —
`find_all(string=pattern)`. -/
def findTextsC (p : String → Bool) : Node → Nat → List (List Nat)
  | .text s, i => if p s then [[i]] else []
  | .elem _ _ cs, i => (findTextsL p cs 0).map (fun q => i :: q)
/-- Text search over a forest starting at child index `i`. -/
def findTextsL (p : String → Bool) : List Node → Nat → List (List Nat)
  | [], _ => []
  | c :: cs, i => findTextsC p c i ++ findTextsL p cs (i + 1)
end

/-- Paths of matching text nodes below the root. -/
def findTexts (p : String → Bool) : Node → List (List Nat)
  | .text _ => []
  | .elem _ _ cs => findTextsL p cs 0

mutual
/-- Paths of elements with tag `tg` (the element before its
descendants, as in `find_all(tag)` document order). -/
def findTagC (tg : String) : Node → Nat → List (List Nat)
  | .text _, _ => []
  | .elem t _ cs, i =>
    (if t == tg then [[i]] else []) ++ (findTagL tg cs 0).map (fun q => i :: q)
/-- Tag search over a forest starting at child index `i`. -/
def findTagL (tg : String) : List Node → Nat → List (List Nat)
  | [], _ => []
  | c :: cs, i => findTagC tg c i ++ findTagL tg cs (i + 1)
end

/-- Paths of elements with tag `tg` below the root. -/
def findTag (tg : String) : Node → List (List Nat)
  | .text _ => []
  | .elem _ _ cs => findTagL tg cs 0

mutual
/-- Remove every node (with its subtree) satisfying `p` from a forest —
the net effect of `find_all` + `decompose` for a predicate that only
reads the matched node itself. -/
def pruneL (p : Node → Bool) : List Node → List Node
  | [] => []
  | c :: cs => (if p c then [] else [pruneC p c]) ++ pruneL p cs
/-- Prune below one (unmatched) node. -/
def pruneC (p : Node → Bool) : Node → Node
  | .text s => .text s
  | .elem t a cs => .elem t a (pruneL p cs)
end

/-- Prune matching descendants of the root (`find_all` never returns
the element it is called on). -/
def pruneRoot (p : Node → Bool) : Node → Node
  | .text s => .text s
  | .elem t a cs => .elem t a (pruneL p cs)

/-! ### The removal passes of `clean_content`, in source order. -/

/-- Pass 1 predicate: an element whose `style` attribute matches
`display\s*:\s*none` under `re.I`. -/
def isHiddenEl : Node → Bool
  | .elem _ a _ =>
    match getAttr a "style" with
    | some v => styleHidden v
    | none => false
  | .text _ => false

/-- Pass 1: remove hidden elements. -/
def hiddenPass : Node → Node :=
  pruneRoot isHiddenEl

/-- Pass 2 predicate: a tracking-pixel image — width or height attribute
`"0"`/`"1"`, or a source URL containing a tracking substring. -/
def isTrackingImg : Node → Bool
  | .elem t a _ =>
    t == "img" &&
      (let w := getAttrD a "width" ""
       let h := getAttrD a "height" ""
       (w == "0" || w == "1" || h == "0" || h == "1") ||
         trackingSrc (getAttrD a "src" ""))
  | .text _ => false

/-- Pass 2: remove tracking pixels. -/
def pixelPass : Node → Node :=
  pruneRoot isTrackingImg

/-- Referral-pass ascent: `for _ in range(5)` climbing
`parent = parent.parent` while the parent's parent exists and is not
the container, i.e. while the current path has length at least 2. -/
def refAscend : List Nat → Nat → List Nat
  | p, 0 => p
  | p, fuel + 1 => if 2 ≤ p.length then refAscend p.dropLast fuel else p

/-- Referral-pass step for one matched text node at path `q`: ascend
from its parent, then `decompose` the reached block unless it is the
container itself. -/
def referralStep (t : Node) (q : List Nat) :
    Node × (List Nat → Option (List Nat)) :=
  let p := refAscend q.dropLast 5
  if 1 ≤ p.length then (removeAt t p, adjustDel p) else (t, some)

/-- Pass 3: remove referral-program blocks (text nodes containing the
template marker, ascending up to 5 levels). -/
def referralPass (t : Node) : Node :=
  runSteps referralStep t (findTexts rpMarker t)

/-- Link-pass ascent: `for _ in range(3)` climbing while the parent's
parent exists, is not the container, and the current parent's stripped
text stays under 200 characters. -/
def linkAscend (t : Node) : List Nat → Nat → List Nat
  | p, 0 => p
  | p, fuel + 1 =>
    if 2 ≤ p.length then
      if (textAt t p).length < 200 then linkAscend t p.dropLast fuel else p
    else p

/-- Link-pass step for the anchor at path `q`: on a boilerplate text
match, ascend and remove the reached block when it is not the container
and its text stays under 300 characters, otherwise remove only the
anchor. -/
def linkStep (t : Node) (q : List Nat) :
    Node × (List Nat → Option (List Nat)) :=
  match getAt t q with
  | none => (t, some)
  | some a =>
    if anyBoilerLink (nodeTextL a) then
      let p := linkAscend t q.dropLast 3
      if 1 ≤ p.length ∧ (textAt t p).length < 300 then
        (removeAt t p, adjustDel p)
      else (removeAt t q, adjustDel q)
    else (t, some)

/-- Pass 4: remove boilerplate links (or their small enclosing blocks). -/
def linkPass (t : Node) : Node :=
  runSteps linkStep t (findTag "a" t)

/-- The `boilerplate_classes` of the source. -/
def boilerplateClassNames : List String :=
  ["share-links", "social-links", "subscribe-cta", "referral",
    "footer", "email-footer"]

/-- Pass 5 predicate for one class pattern: the element's class
attribute matches the pattern under `re.I`.  bs4 matches the regex
against each space-separated class token; as no pattern contains a
space, that is equivalent to a substring match on the whole attribute
value, which is how the class attribute is modelled here. -/
def classMatch (cls : String) : Node → Bool
  | .elem _ a _ =>
    match getAttr a "class" with
    | some v => containsCI v.data cls
    | none => false
  | .text _ => false

/-- Pass 5: remove named boilerplate containers, one class pattern at a
time as in the source. -/
def classPass (t : Node) : Node :=
  boilerplateClassNames.foldl (fun tr cls => pruneRoot (classMatch cls) tr) t

/-- Footer-pass ascent: `for _ in range(10)` climbing while the node is
below a sole-element-child wrapper; stops when the node's parent is the
container (or missing) or has more than one element child. -/
def footAscend (t : Node) : List Nat → Nat → List Nat
  | n, 0 => n
  | n, fuel + 1 =>
    if n.length ≤ 1 then n
    else if 1 < elemCountAt t n.dropLast then n
    else footAscend t n.dropLast fuel

/-- Footer-pass step for one matched text node at path `q`: ascend from
its parent; when the reached node is neither the container nor a direct
child of the container, remove it and all its following siblings. -/
def footerStep (t : Node) (q : List Nat) :
    Node × (List Nat → Option (List Nat)) :=
  let n := footAscend t q.dropLast 10
  if 2 ≤ n.length then
    (truncateAt t n.dropLast (n.getLastD 0), adjustTrunc n.dropLast (n.getLastD 0))
  else (t, some)

/-- Pass 6: remove recurring footer/CTA sections, one pattern at a time
as in the source (each pattern takes a fresh `find_all` snapshot). -/
def footerPass (t : Node) : Node :=
  footerPatterns.foldl (fun tr pat => runSteps footerStep tr (findTexts pat tr)) t

/-- Footer-image step for the image at path `q`: on a CTA/footer/divider
source match, remove the image's parent when that parent is not the
container and has no text at all, otherwise remove only the image. -/
def ctaImgStep (t : Node) (q : List Nat) :
    Node × (List Nat → Option (List Nat)) :=
  match getAt t q with
  | none => (t, some)
  | some img =>
    if ctaImgSrc (getAttrD img.attrsOf "src" "") then
      let p := q.dropLast
      if 1 ≤ p.length then
        if (textAt t p).isEmpty then (removeAt t p, adjustDel p)
        else (removeAt t q, adjustDel q)
      else (removeAt t q, adjustDel q)
    else (t, some)

/-- Pass 7: remove footer/CTA images (and pure-wrapper parents). -/
def ctaImgPass (t : Node) : Node :=
  runSteps ctaImgStep t (findTag "img" t)

/-- Pass 8 predicate: a `p`/`td` element whose stripped text is empty or
a lone non-breaking-space entity, with no embedded media. -/
def isEmptyPTd : Node → Bool
  | .elem t _ cs =>
    (t == "p" || t == "td") &&
      (let tx := nodesTextL cs
       (tx.isEmpty || tx == "\u00A0".data || tx == "&nbsp;".data) &&
         !hasMediaL cs)
  | .text _ => false

/-- Pass 8: remove empty paragraphs and nbsp-only cells. -/
def emptyPass : Node → Node :=
  pruneRoot isEmptyPTd

/-- All eight passes of `clean_content` over the content tree, in
source order. -/
def cleanBody (c : Node) : Node :=
  emptyPass (ctaImgPass (footerPass (classPass (linkPass
    (referralPass (pixelPass (hiddenPass c)))))))

/-! ### Serialization and `clean_content` -/

/-- Serialization of an attribute list. -/
def renderAttrs : List (String × String) → String
  | [] => ""
  | (k, v) :: rest => " " ++ k ++ "=\x22" ++ v ++ "\x22" ++ renderAttrs rest

mutual
/-- Serialization of one node (the model of `str(soup_content)`). -/
def renderN : Node → String
  | .text s => s
  | .elem t a cs =>
    "<" ++ t ++ renderAttrs a ++ ">" ++ renderL cs ++ "</" ++ t ++ ">"
/-- Serialization of a forest. -/
def renderL : List Node → String
  | [] => ""
  | c :: cs => renderN c ++ renderL cs
end

/-- `clean_content`: `None` yields the empty string, otherwise the
cleaned tree is serialized. -/
def clean_content : Option Node → String
  | none => ""
  | some c => renderN (cleanBody c)

/-! ### URL path and slug (`urlparse(url).path` and the slug regex) -/

/-- Valid scheme per `urlparse`: a letter followed by letters, digits,
`+`, `-`, `.`. -/
def validScheme : List Char → Bool
  | [] => false
  | c :: rest =>
    c.isAlpha && rest.all (fun d => d.isAlphanum || d == '+' || d == '-' || d == '.')

/-- Strip a leading `scheme:` when present and well formed. -/
def dropScheme (cs : List Char) : List Char :=
  let before := cs.takeWhile (fun c => c != ':')
  if before.length < cs.length && validScheme before then
    cs.drop (before.length + 1)
  else cs

/-- Model of `urlparse(url).path`: strip the scheme, then `//authority`
up to the next `/`, `?` or `#`, then cut the query and fragment. -/
def urlPath (url : String) : String :=
  let cs := dropScheme url.data
  let cs :=
    if ("//".data).isPrefixOf cs then
      (cs.drop 2).dropWhile (fun c => c != '/' && c != '?' && c != '#')
    else cs
  let cs := cs.takeWhile (fun c => c != '#')
  ⟨cs.takeWhile (fun c => c != '?')⟩

/-- Python `path.split("/")` on character lists. -/
def splitSlash : List Char → List (List Char)
  | [] => [[]]
  | c :: rest =>
    if c == '/' then [] :: splitSlash rest
    else
      match splitSlash rest with
      | [] => [[c]]
      | g :: gs => (c :: g) :: gs

/-- The slug computation of `fetch_post`: `re.search(r"/p/([^/]+)/?$",
path)` — which matches exactly when, after stripping at most one
trailing slash, the path ends in `/p/<seg>` with a nonempty slash-free
segment — and otherwise `path.rsplit("/", 1)[-1]`. -/
def slugFromPath (path : String) : String :=
  let pl := path.data
  let stripped := if pl.getLast? == some '/' then pl.dropLast else pl
  let comps := splitSlash stripped
  if 3 ≤ comps.length && comps.getLastD [] != [] &&
      comps.getD (comps.length - 2) [] == "p".data then
    ⟨comps.getLastD []⟩
  else
    ⟨(splitSlash pl).getLastD []⟩

/-- Slug derived from a post URL. -/
def slugOfUrl (url : String) : String :=
  slugFromPath (urlPath url)

/-! ### `fetch_post` (the pure extraction core) -/

/-- The part of one fetched page that `fetch_post` consumes, with the
two library layers (HTML parsing and `json.loads`) applied:

* `ldScripts` — the parse result of each
  `script[type="application/ld+json"]` block in document order
  (`none` for malformed JSON or a `None` string);
* `remixCtx` — the field list of the object assigned to
  `window.__remixContext`, when a script matches and parses;
* `metaProps`/`metaNames` — the `content` attribute of the first
  `meta` tag for each `property=`/`name=` key that occurs
  (`soup.find` returns the first match in document order);
* `titleTag` — `soup.title`: absent, or present with its `.string`;
* `contentBlocks` — the `div#content-blocks` element, when found. -/
structure RawPage where
  ldScripts : List (Option Json)
  remixCtx : Option (List (String × Json))
  metaProps : List (String × Option String)
  metaNames : List (String × Option String)
  titleTag : Option (Option String)
  contentBlocks : Option Node

/-- `get_meta(soup, property_name=k)`. -/
def getMetaProp (page : RawPage) (k : String) : Option String :=
  match page.metaProps.find? (fun kv => kv.1 == k) with
  | some kv => kv.2
  | none => none

/-- `get_meta(soup, name=k)`. -/
def getMetaName (page : RawPage) (k : String) : Option String :=
  match page.metaNames.find? (fun kv => kv.1 == k) with
  | some kv => kv.2
  | none => none

/-- The record returned by `fetch_post` (field values live in the
Python value domain `Json`; `url` and `slug` are always strings by
construction). -/
structure PostData where
  title : Json
  date : Json
  date_modified : Json
  description : Json
  featured_image : Json
  url : String
  slug : String
  authors : List Json
  tags : List Json
  content_html : String

/-- The pure core of `fetch_post` after the network fetch: metadata
resolution and body cleaning for one page.  Each `json_ld.get(...)`
uses `pyGet`, so a non-dict JSON-LD result raises (`.error ()`),
exactly as the `AttributeError` the source would raise there. -/
def fetch_post (page : RawPage) (url : String) : Except Unit PostData := do
  let json_ld := extract_json_ld page.ldScripts
  let remix := extract_remix_context page.remixCtx
  let slug := slugOfUrl url
  let headline ← pyGet json_ld "headline"
  let title := pyOr headline (pyOr (optStrJson (getMetaProp page "og:title"))
    (match page.titleTag with
     | none => .str slug
     | some none => .null
     | some (some s) => .str s))
  let date ← pyGet json_ld "datePublished"
  let dateModified ← pyGet json_ld "dateModified"
  let descr ← pyGet json_ld "description"
  let description := pyOr descr (pyOr (optStrJson (getMetaProp page "og:description"))
    (optStrJson (getMetaName page "description")))
  let imageData ← pyGet json_ld "image"
  let featured :=
    match imageData with
    | .obj ifs => (jlookup ifs "url").getD .null
    | .str s => .str s
    | _ => optStrJson (getMetaProp page "og:image")
  let authors0 := extract_authors remix
  let authors ←
    if authors0.isEmpty then do
      let publisher ← pyGetD json_ld "publisher" (.obj [])
      let pubName :=
        match publisher with
        | .obj pfs => (jlookup pfs "name").getD .null
        | _ => .null
      let pubName := pyOr pubName (optStrJson (getMetaProp page "og:site_name"))
      pure (if truthy pubName then [pubName] else [])
    else pure authors0
  let tags := extract_tags remix
  let content :=
    match page.contentBlocks with
    | some div => clean_content (some div)
    | none => ""
  return {
    title := title
    date := date
    date_modified := dateModified
    description := description
    featured_image := featured
    url := url
    slug := slug
    authors := authors
    tags := tags
    content_html := content }

/-! ### `rewrite_content_images` -/

/-- Association lookup in the image mapping (`src in image_map` plus
`image_map[src]`). -/
def alookupS (m : List (String × String)) (k : String) : Option String :=
  (m.find? (fun kv => kv.1 == k)).map (fun kv => kv.2)

/-- Setting `img["src"] = v` on an attribute list. -/
def setAttr : List (String × String) → String → String → List (String × String)
  | [], _, _ => []
  | (k0, v0) :: rest, k, v =>
    (match k0 == k with
     | true => (k, v)
     | false => (k0, v0)) :: setAttr rest k v

/-- The per-image rewrite: `if src and src in image_map`. -/
def rewriteSrcAttrs (imap : List (String × String)) (pfx : String)
    (a : List (String × String)) : List (String × String) :=
  match getAttr a "src" with
  | none => a
  | some src =>
    if src != "" then
      match alookupS imap src with
      | some fn => setAttr a "src" (pfx ++ "/" ++ fn)
      | none => a
    else a

mutual
/-- Rewrite every inline image reference in one node. -/
def rewriteImgsC (imap : List (String × String)) (pfx : String) : Node → Node
  | .text s => .text s
  | .elem t a cs =>
    .elem t (if t == "img" then rewriteSrcAttrs imap pfx a else a)
      (rewriteImgsL imap pfx cs)
/-- Rewrite over a forest. -/
def rewriteImgsL (imap : List (String × String)) (pfx : String) :
    List Node → List Node
  | [] => []
  | c :: cs => rewriteImgsC imap pfx c :: rewriteImgsL imap pfx cs
end

/-- `rewrite_content_images`: the body markup is modelled as the forest
its re-parse produces, so the `not content_html` guard is the empty
forest; an empty mapping also returns the input unchanged. -/
def rewrite_content_images (content : List Node)
    (imap : List (String × String)) (pfx : String) : List Node :=
  if content.isEmpty || imap.isEmpty then content
  else rewriteImgsL imap pfx content

mutual
/-- Observer: the `src` attribute of every inline image, in document
order (`none` when the attribute is absent). -/
def imgSrcsC : Node → List (Option String)
  | .text _ => []
  | .elem t a cs => (if t == "img" then [getAttr a "src"] else []) ++ imgSrcsL cs
/-- Image sources of a forest. -/
def imgSrcsL : List Node → List (Option String)
  | [] => []
  | c :: cs => imgSrcsC c ++ imgSrcsL cs
end

/-! ### Front matter of `post_to_markdown` -/

/-- Python slicing `x[:10]` on a JSON value: defined on strings and
lists, a `TypeError` otherwise (it is only reached on truthy values). -/
def pySlice10 : Json → Except Unit Json
  | .str s => .ok (.str ⟨s.data.take 10⟩)
  | .arr xs => .ok (.arr (xs.take 10))
  | _ => .error ()

/-- The mapping rewrite for a string-valued featured image
(`alookupS` is `None` on the empty mapping, so the `image_map and`
short-circuit is absorbed for strings). -/
def featuredValueStr (s : String) (imap : List (String × String))
    (pfx : String) : Json :=
  match alookupS imap s with
  | some fn => .str (pfx ++ "/" ++ fn)
  | none => .str s

/-- The `featured_image` value after the mapping rewrite
(`if image_map and fi in image_map`).  With an empty mapping the `and`
short-circuits and the value passes through unchanged; with a nonempty
mapping the membership test `fi in image_map` raises `TypeError` when
`fi` is unhashable (a list or a dict), a string is rewritten when it is
a key of the mapping, and every other (hashable) value is not a key of
the string-keyed mapping and passes through unchanged. -/
def featuredValue (fi : Json) (imap : List (String × String))
    (pfx : String) : Except Unit Json :=
  if imap.isEmpty then .ok fi
  else
    match fi with
    | .str s => .ok (featuredValueStr s imap pfx)
    | .arr _ => .error ()
    | .obj _ => .error ()
    | j => .ok j

/-- The value `featuredValue` yields when it does not raise: used in
theorem statements about the successful case. -/
def featuredValueT (fi : Json) (imap : List (String × String))
    (pfx : String) : Json :=
  match fi with
  | .str s => featuredValueStr s imap pfx
  | j => j

/-- The ordered front-matter mapping built by `post_to_markdown`
(`yaml.dump(frontmatter, sort_keys=False)` serializes it in exactly
this insertion order). -/
def post_to_markdown_frontmatter (pd : PostData)
    (imap : List (String × String)) (pfx : String) :
    Except Unit (List (String × Json)) := do
  let fm := [("title", pd.title)]
  let fm ←
    if truthy pd.date then do
      let d ← pySlice10 pd.date
      pure (fm ++ [("date", d)])
    else pure fm
  let fm := fm ++ [("url", Json.str pd.url), ("slug", Json.str pd.slug)]
  let fm := if truthy pd.description then fm ++ [("description", pd.description)] else fm
  let fm ←
    if truthy pd.featured_image then do
      let fv ← featuredValue pd.featured_image imap pfx
      pure (fm ++ [("featured_image", fv)])
    else pure fm
  let fm := if !pd.authors.isEmpty then fm ++ [("authors", Json.arr pd.authors)] else fm
  let fm := if !pd.tags.isEmpty then fm ++ [("tags", Json.arr pd.tags)] else fm
  return fm

/-! ## Characterization of `fetch_post` -/

/-- The record `fetch_post` produces once the JSON-LD value is known to
be a dict with fields `fs`. -/
def mkPost (fs : List (String × Json)) (page : RawPage) (url : String) : PostData :=
  { title := pyOr ((jlookup fs "headline").getD .null)
      (pyOr (optStrJson (getMetaProp page "og:title"))
        (match page.titleTag with
         | none => .str (slugOfUrl url)
         | some none => .null
         | some (some s) => .str s))
    date := (jlookup fs "datePublished").getD .null
    date_modified := (jlookup fs "dateModified").getD .null
    description := pyOr ((jlookup fs "description").getD .null)
      (pyOr (optStrJson (getMetaProp page "og:description"))
        (optStrJson (getMetaName page "description")))
    featured_image :=
      match (jlookup fs "image").getD .null with
      | .obj ifs => (jlookup ifs "url").getD .null
      | .str s => .str s
      | _ => optStrJson (getMetaProp page "og:image")
    url := url
    slug := slugOfUrl url
    authors :=
      if (extract_authors (extract_remix_context page.remixCtx)).isEmpty then
        let publisher := (jlookup fs "publisher").getD (.obj [])
        let pubName :=
          match publisher with
          | .obj pfs => (jlookup pfs "name").getD .null
          | _ => .null
        let pubName := pyOr pubName (optStrJson (getMetaProp page "og:site_name"))
        if truthy pubName then [pubName] else []
      else extract_authors (extract_remix_context page.remixCtx)
    tags := extract_tags (extract_remix_context page.remixCtx)
    content_html :=
      match page.contentBlocks with
      | some div => clean_content (some div)
      | none => "" }

/-! ### Concrete pages, records and tree families used by the claim
theorems below. -/

/-- A page with no metadata sources and no body container at all. -/
def emptyRawPage : RawPage :=
  { ldScripts := [], remixCtx := none, metaProps := [], metaNames := []
  , titleTag := none, contentBlocks := none }

/-- A page whose only JSON-LD block holds the valid JSON document
`"hello"` (a bare string), together with a perfectly ordinary body. -/
def scalarLdPage : RawPage :=
  { ldScripts := [some (.str "hello")]
  , remixCtx := none, metaProps := [], metaNames := []
  , titleTag := some (some "My title")
  , contentBlocks := some (.elem "div" [("id", "content-blocks")]
      [.elem "p" [] [.text "Body text."]]) }

/-- A page whose body container is missing and whose only JSON-LD block
is the scalar document `"hello"`. -/
def noBodyScalarLdPage : RawPage :=
  { ldScripts := [some (.str "hello")]
  , remixCtx := none, metaProps := [], metaNames := []
  , titleTag := none, contentBlocks := none }

/-- A page with no JSON-LD, no meta tags, and a `title` element whose
`.string` is `None` (e.g. `<title></title>`). -/
def emptyTitleTagPage : RawPage :=
  { ldScripts := [], remixCtx := none, metaProps := [], metaNames := []
  , titleTag := some none, contentBlocks := none }

/-- Page for the C2 witness: only an ordinary `<title>` element. -/
def plainTitlePage : RawPage :=
  { ldScripts := [], remixCtx := none, metaProps := [], metaNames := []
  , titleTag := some (some "Hi"), contentBlocks := none }

/-- Page for the C2 witness: a truthy JSON-LD headline together with
`og:title` and `<title>` sources further down the chain. -/
def headlinePage : RawPage :=
  { ldScripts := [some (.obj [("headline", .str "H")])]
  , remixCtx := none, metaProps := [("og:title", some "OG")], metaNames := []
  , titleTag := some (some "T"), contentBlocks := none }

/-- Page for the C2 witness: a falsy headline but a truthy `og:title`
meta tag, with a `<title>` element further down the chain. -/
def ogTitlePage : RawPage :=
  { ldScripts := [], remixCtx := none
  , metaProps := [("og:title", some "OG")], metaNames := []
  , titleTag := some (some "T"), contentBlocks := none }

/-- Record for the C6 witness: every optional field present. -/
def fullRecord : PostData :=
  { title := .str "Hello", date := .str "2024-03-01T12:00:00Z"
  , date_modified := .null, description := .str "Desc"
  , featured_image := .str "https://x.com/f.jpg"
  , url := "https://ex.com/p/alpha", slug := "alpha"
  , authors := [.str "Ann"], tags := [.str "news"], content_html := "" }

/-- The rewrite applied to one image source string by
`rewrite_content_images`. -/
def srcRewrite (imap : List (String × String)) (pfx : String) (s : String) : String :=
  match alookupS imap s with
  | some fn => if s = "" then s else pfx ++ "/" ++ fn
  | none => s

/-- The two-level family for C5. -/
def linkFam (s1 at2 s2 h : String) : Node :=
  .elem "div" [("id", "content-blocks")]
    [.elem "div" []
      [.elem "p" []
        [.text s1, .elem "a" [("href", h)] [.text at2], .text s2]]]

/-- The deep sole-child chain for the ascent cap. -/
def linkDeep (at2 h : String) : Node :=
  .elem "div" [("id", "content-blocks")]
    [.elem "div" [] [.elem "div" [] [.elem "div" [] [.elem "div" []
      [.elem "p" [] [.elem "a" [("href", h)] [.text at2]]]]]]]

/-- A 300-character text run for the C5 witness. -/
def c5Long : String := ⟨List.replicate 300 'x'⟩

/-- Page for the C9 witness: rich metadata, to contrast with the bare
page. -/
def richMetaPage : RawPage :=
  { ldScripts := [some (.obj [("headline", .str "Hello")])]
  , remixCtx := none, metaProps := [("og:image", some "https://x.com/f.jpg")]
  , metaNames := [], titleTag := some (some "T")
  , contentBlocks := some (.elem "div" [("id", "content-blocks")] []) }

mutual
/-- No text node in this node's subtree (itself included) matches `pat`. -/
def textCleanC (pat : String → Bool) : Node → Bool
  | .text s => !pat s
  | .elem _ _ cs => textCleanL pat cs
/-- No text node in this forest matches `pat`. -/
def textCleanL (pat : String → Bool) : List Node → Bool
  | [] => true
  | c :: cs => textCleanC pat c && textCleanL pat cs
end

/-- The nested C3 family: the trigger paragraph sits beside `pre` and
`post` inside a wrapper that is a direct child of the container. -/
def footFam (pre post : List Node) (t : String) : Node :=
  .elem "div" [("id", "content-blocks")]
    [.elem "div" [] (pre ++ .elem "p" [] [.text t] :: post)]

/-- The top-level C3 family: the trigger paragraph is a direct child of
the container. -/
def footFamTop (pre post : List Node) (t : String) : Node :=
  .elem "div" [("id", "content-blocks")] (pre ++ .elem "p" [] [.text t] :: post)

/-- Concrete pre/post content for the C3 witness. -/
def c3pre : List Node := [.elem "p" [] [.text "Intro paragraph."]]

/-- Concrete trailing content for the C3 witness. -/
def c3post : List Node :=
  [.elem "p" [] [.text "Trailing junk."], .elem "img" [("src", "x.png")] []]

/-- The concrete C3 counterexample document: the trigger paragraph is a
direct child of the content container, mid-document. -/
def footerEx : Node :=
  .elem "div" [("id", "content-blocks")]
    [ .elem "p" [] [.text "Intro."]
    , .elem "p" [] [.text "There are 3 ways I can help you today."]
    , .elem "p" [] [.text "More article content."] ]

/-- `fetch_post` succeeds exactly when the extracted JSON-LD value is a
dict, in which case it produces `mkPost`; any other JSON-LD shape makes
the first `json_ld.get` raise. -/
theorem fetch_post_spec (page : RawPage) (url : String) :
    fetch_post page url =
      match extract_json_ld page.ldScripts with
      | .obj fs => .ok (mkPost fs page url)
      | _ => .error () := by
  cases h : extract_json_ld page.ldScripts <;>
    simp [fetch_post, pyGet, pyGetD, h, mkPost, Bind.bind, Except.bind,
      pure, Except.pure]
  by_cases ha : (extract_authors (extract_remix_context page.remixCtx)).isEmpty <;>
    simp [ha]

/-- Projection of the always-derivable fields out of a successful
`fetch_post`. -/
theorem fetch_post_ok_fields (page : RawPage) (url : String) (r : PostData)
    (h : fetch_post page url = .ok r) :
    r.slug = slugOfUrl url ∧ r.url = url := by
  have hs := fetch_post_spec page url
  rw [h] at hs
  cases hx : extract_json_ld page.ldScripts <;> rw [hx] at hs <;> simp_all [mkPost]

/-! ## Claim theorems -/

/-- C1: the extraction core is not total.  When a JSON-LD block parses
to a non-object JSON value (here the string `"hello"`),
`extract_json_ld` returns it unchanged and `fetch_post` raises
`AttributeError` at `json_ld.get("headline")`, so extraction aborts
instead of completing with absent fields. -/
theorem jsonld_scalar_crashes_fetch_post :
    fetch_post scalarLdPage "https://ex.com/p/alpha" = .error () := rfl

/-- C8: a page whose body container cannot be located still crashes
when its JSON-LD block parses to a non-object, so the pipeline does not
yield a record with an empty body for every such page.  (The body path
itself is total: `clean_content none = ""`.) -/
theorem missing_body_with_scalar_jsonld_errors :
    fetch_post noBodyScalarLdPage "https://ex.com/p/alpha" = .error ()
    ∧ clean_content none = "" :=
  ⟨rfl, rfl⟩

/-- C2 counterexample: with every title source empty and a present but
empty `<title>` element, the resolved title is `None`, not the
(nonempty) slug — the slug fallback is taken only when the `title`
element is entirely absent. -/
theorem empty_title_tag_gives_null_title :
    (fetch_post emptyTitleTagPage "https://ex.com/p/hello").toOption.map PostData.title
        = some Json.null
    ∧ slugOfUrl "https://ex.com/p/hello" = "hello"
    ∧ Json.null ≠ Json.str "hello" :=
  ⟨rfl, rfl, fun h => Json.noConfusion h⟩

/-- C2 amended: the resolved title is the first truthy value among the
JSON-LD headline and the `og:title` meta tag; after that, when the page
has a `<title>` element, the title is that element's string verbatim
(`None` when the element is empty), and the slug is used only when the
page has no `<title>` element at all. -/
theorem title_resolution_amended (page : RawPage) (url : String) (r : PostData)
    (hok : fetch_post page url = .ok r) :
    (truthy (getJ (extract_json_ld page.ldScripts) "headline") = true →
        r.title = getJ (extract_json_ld page.ldScripts) "headline")
    ∧ (truthy (getJ (extract_json_ld page.ldScripts) "headline") = false →
        truthy (optStrJson (getMetaProp page "og:title")) = true →
        r.title = optStrJson (getMetaProp page "og:title"))
    ∧ (truthy (getJ (extract_json_ld page.ldScripts) "headline") = false →
        truthy (optStrJson (getMetaProp page "og:title")) = false →
        (page.titleTag = none → r.title = .str (slugOfUrl url))
        ∧ (page.titleTag = some none → r.title = Json.null)
        ∧ (∀ s, page.titleTag = some (some s) → r.title = .str s)) := by
  have hs := fetch_post_spec page url
  rw [hok] at hs
  cases hx : extract_json_ld page.ldScripts <;> rw [hx] at hs <;> simp at hs
  case obj fs =>
    subst hs
    simp only [getJ]
    refine ⟨?_, ?_, ?_⟩
    · intro h1; simp [mkPost, pyOr, h1]
    · intro h1 h2; simp [mkPost, pyOr, h1, h2]
    · intro h1 h2
      refine ⟨?_, ?_, ?_⟩
      · intro ht; simp [mkPost, ht, pyOr, h1, h2]
      · intro ht; simp [mkPost, ht, pyOr, h1, h2]
      · intro s ht; simp [mkPost, ht, pyOr, h1, h2]

/-- C2 witness: one concrete page per arm of the resolution chain — a
truthy headline wins over every later source, a truthy `og:title` wins
once the headline is falsy, and an ordinary `<title>Hi</title>` element
resolves verbatim once both are falsy. -/
theorem title_resolution_amended_witness :
    (∃ r, fetch_post headlinePage "https://ex.com/p/x" = .ok r
        ∧ r.title = Json.str "H")
    ∧ (∃ r, fetch_post ogTitlePage "https://ex.com/p/x" = .ok r
        ∧ r.title = Json.str "OG")
    ∧ (∃ r, fetch_post plainTitlePage "https://ex.com/p/x" = .ok r
        ∧ r.title = Json.str "Hi") := by
  refine ⟨⟨mkPost [("headline", Json.str "H")] headlinePage "https://ex.com/p/x",
      rfl, ?_⟩,
    ⟨mkPost [] ogTitlePage "https://ex.com/p/x", rfl, ?_⟩,
    ⟨mkPost [] plainTitlePage "https://ex.com/p/x", rfl, ?_⟩⟩
  · exact ((title_resolution_amended headlinePage "https://ex.com/p/x"
      (mkPost [("headline", Json.str "H")] headlinePage "https://ex.com/p/x")
      rfl).1 rfl).trans rfl
  · exact ((title_resolution_amended ogTitlePage "https://ex.com/p/x"
      (mkPost [] ogTitlePage "https://ex.com/p/x") rfl).2.1 rfl rfl).trans rfl
  · exact ((title_resolution_amended plainTitlePage "https://ex.com/p/x"
      (mkPost [] plainTitlePage "https://ex.com/p/x") rfl).2.2 rfl rfl).2.2 "Hi" rfl

/-- The `for item in data` selection agrees with `List.find?` on the
article-type predicate. -/
theorem findArticle_eq (items : List Json) :
    findArticle items = items.find? isArticleType := by
  induction items with
  | nil => rfl
  | cons x xs ih =>
    by_cases hx : isArticleType x <;> simp [findArticle, hx, ih, List.find?_cons]

/-- C4: for a JSON-LD block parsing to a list, the first article-typed
entry wins, else the first entry, else `\x7b\x7d`; an unparsable block is
skipped and scanning continues; the first successfully parsed block
decides the result whatever follows it. -/
theorem json_ld_list_selection (items : List Json) (rest rest2 : List (Option Json))
    (d : Json) :
    extract_json_ld (some (Json.arr items) :: rest)
        = ((items.find? isArticleType).getD (items.headD (Json.obj [])))
    ∧ extract_json_ld (none :: rest) = extract_json_ld rest
    ∧ extract_json_ld (some d :: rest) = extract_json_ld (some d :: rest2)
    ∧ extract_json_ld (some (Json.arr []) :: rest) = Json.obj [] := by
  refine ⟨?_, rfl, ?_, rfl⟩
  · simp only [extract_json_ld, findArticle_eq]
    cases hf : items.find? isArticleType <;> rcases items with _ | ⟨x, xs⟩ <;> simp_all
  · cases d <;> rfl

/-- C10: the tracking-pixel pass removes an image whose source URL
contains a tracking substring regardless of its declared dimensions: a
full-size image with such a URL satisfies the tracking-pixel predicate
and is deleted from the tree. -/
theorem tracking_substring_removes_any_image (w h src alt : String)
    (hsrc : trackingSrc src = true) :
    isTrackingImg (.elem "img"
        [("src", src), ("width", w), ("height", h), ("alt", alt)] []) = true
    ∧ pixelPass (.elem "div" [("id", "content-blocks")]
        [.elem "img" [("src", src), ("width", w), ("height", h), ("alt", alt)] []])
      = .elem "div" [("id", "content-blocks")] [] := by
  have h1 : isTrackingImg (.elem "img"
      [("src", src), ("width", w), ("height", h), ("alt", alt)] []) = true := by
    simp [isTrackingImg, getAttrD, getAttr, hsrc]
  exact ⟨h1, by simp [pixelPass, pruneRoot, pruneL, h1]⟩

/-- C10 witness: a full-size content image whose URL merely contains
the path segment `/o/` is deleted. -/
theorem tracking_substring_removes_any_image_witness :
    trackingSrc "https://cdn.example.com/o/photo.jpg" = true
    ∧ pixelPass (.elem "div" [("id", "content-blocks")]
        [.elem "img" [("src", "https://cdn.example.com/o/photo.jpg"),
          ("width", "600"), ("height", "400"), ("alt", "Chart")] []])
      = .elem "div" [("id", "content-blocks")] [] :=
  ⟨rfl, (tracking_substring_removes_any_image "600" "400"
      "https://cdn.example.com/o/photo.jpg" "Chart" rfl).2⟩

/-- C9: the slug and canonical URL of any two successfully extracted
records for the same URL agree, both being computed from the URL alone
(`slugOfUrl`); and a record is producible from a page with every other
source absent. -/
theorem slug_url_depend_only_on_url (url : String) (p1 p2 : RawPage)
    (r1 r2 : PostData) (h1 : fetch_post p1 url = .ok r1)
    (h2 : fetch_post p2 url = .ok r2) :
    (r1.slug = r2.slug ∧ r1.url = r2.url ∧ r1.slug = slugOfUrl url ∧ r1.url = url)
    ∧ ∃ r0, fetch_post emptyRawPage url = .ok r0 ∧ r0.slug = slugOfUrl url
        ∧ r0.url = url := by
  obtain ⟨hs1, hu1⟩ := fetch_post_ok_fields p1 url r1 h1
  obtain ⟨hs2, hu2⟩ := fetch_post_ok_fields p2 url r2 h2
  refine ⟨⟨by rw [hs1, hs2], by rw [hu1, hu2], hs1, hu1⟩,
    ⟨mkPost [] emptyRawPage url, ?_, rfl, rfl⟩⟩
  exact (fetch_post_spec emptyRawPage url).trans rfl

/-- Appending under an accumulating conditional. -/
theorem append_ite {alpha : Type} (c : Prop) [Decidable c] (l x : List alpha) :
    (if c then l ++ x else l) = l ++ (if c then x else []) := by
  split <;> simp

/-- On a string value the membership test cannot raise, and
`featuredValue` yields its total companion. -/
theorem featuredValue_str (s : String) (imap : List (String × String))
    (pfx : String) :
    featuredValue (Json.str s) imap pfx
      = .ok (featuredValueT (Json.str s) imap pfx) := by
  cases imap <;> rfl

/-- C6: the front matter of a record (date and featured image strings
when present, as every record the spec describes has) holds exactly the
keys `title`, `date` (only if present, truncated to its first 10
characters), `url`, `slug`, `description` (only if present),
`featured_image` (only if present, rewritten through the image mapping
when an entry exists), `authors` (only if non-empty), `tags` (only if
non-empty), in that order; absent optional fields are omitted
entirely. -/
theorem frontmatter_fields (pd : PostData) (imap : List (String × String))
    (pfx : String) (hdate : truthy pd.date = true → ∃ s, pd.date = Json.str s)
    (hfim : truthy pd.featured_image = true →
      ∃ s, pd.featured_image = Json.str s) :
    ∃ fm, post_to_markdown_frontmatter pd imap pfx = .ok fm
      ∧ fm.map Prod.fst
          = ["title"] ++ (if truthy pd.date then ["date"] else []) ++ ["url", "slug"]
            ++ (if truthy pd.description then ["description"] else [])
            ++ (if truthy pd.featured_image then ["featured_image"] else [])
            ++ (if !pd.authors.isEmpty then ["authors"] else [])
            ++ (if !pd.tags.isEmpty then ["tags"] else [])
      ∧ (∀ s, pd.date = Json.str s → s ≠ "" →
            jlookup fm "date" = some (Json.str ⟨s.data.take 10⟩))
      ∧ (∀ s fn, pd.featured_image = Json.str s → s ≠ "" →
            alookupS imap s = some fn → imap ≠ [] →
            jlookup fm "featured_image" = some (Json.str (pfx ++ "/" ++ fn))) := by
  classical
  by_cases hd : truthy pd.date
  case pos =>
    obtain ⟨s0, hs0⟩ := hdate hd
    have hd0 : truthy (Json.str s0) = true := hs0 ▸ hd
    refine ⟨("title", pd.title) :: ("date", Json.str ⟨s0.data.take 10⟩) ::
        ("url", Json.str pd.url) :: ("slug", Json.str pd.slug) ::
        ((if truthy pd.description then [("description", pd.description)] else [])
        ++ (if truthy pd.featured_image then
              [("featured_image", featuredValueT pd.featured_image imap pfx)] else [])
        ++ (if !pd.authors.isEmpty then [("authors", Json.arr pd.authors)] else [])
        ++ (if !pd.tags.isEmpty then [("tags", Json.arr pd.tags)] else [])),
      ?_, ?_, ?_, ?_⟩
    · by_cases hft : truthy pd.featured_image
      · obtain ⟨s1, hs1⟩ := hfim hft
        have hft1 : truthy (Json.str s1) = true := hs1 ▸ hft
        simp [post_to_markdown_frontmatter, hd, hd0, hs0, hs1, hft1,
          featuredValue_str, pySlice10, append_ite,
          Bind.bind, Except.bind, pure, Except.pure, List.append_assoc]
        split_ifs <;> simp
      · have hft0 : truthy pd.featured_image = false := by
          simpa using hft
        simp [post_to_markdown_frontmatter, hd, hd0, hs0, hft0, pySlice10,
          append_ite, Bind.bind, Except.bind, pure, Except.pure,
          List.append_assoc]
        split_ifs <;> simp
    · simp [hd, apply_ite (List.map (Prod.fst (α := String) (β := Json))),
        List.append_assoc]
    · intro s hs _
      rw [hs0] at hs
      cases hs
      rfl
    · intro s fn hfi hne hlk _
      have ht : truthy pd.featured_image = true := by
        simp [hfi, truthy, hne]
      have hfv : featuredValueT pd.featured_image imap pfx
          = Json.str (pfx ++ "/" ++ fn) := by
        simp [featuredValueT, featuredValueStr, hfi, hlk]
      rw [ht]
      by_cases hdesc : truthy pd.description <;>
        simp only [hdesc, if_true, if_false, hfv, List.nil_append,
          List.singleton_append] <;> rfl
  case neg =>
    have hdf : truthy pd.date = false := by
      simpa using hd
    refine ⟨("title", pd.title) ::
        ("url", Json.str pd.url) :: ("slug", Json.str pd.slug) ::
        ((if truthy pd.description then [("description", pd.description)] else [])
        ++ (if truthy pd.featured_image then
              [("featured_image", featuredValueT pd.featured_image imap pfx)] else [])
        ++ (if !pd.authors.isEmpty then [("authors", Json.arr pd.authors)] else [])
        ++ (if !pd.tags.isEmpty then [("tags", Json.arr pd.tags)] else [])),
      ?_, ?_, ?_, ?_⟩
    · by_cases hft : truthy pd.featured_image
      · obtain ⟨s1, hs1⟩ := hfim hft
        have hft1 : truthy (Json.str s1) = true := hs1 ▸ hft
        simp [post_to_markdown_frontmatter, hdf, hs1, hft1,
          featuredValue_str, append_ite,
          Bind.bind, Except.bind, pure, Except.pure, List.append_assoc]
        split_ifs <;> simp
      · have hft0 : truthy pd.featured_image = false := by
          simpa using hft
        simp [post_to_markdown_frontmatter, hdf, hft0, append_ite,
          Bind.bind, Except.bind, pure, Except.pure, List.append_assoc]
        split_ifs <;> simp
    · simp [hdf, apply_ite (List.map (Prod.fst (α := String) (β := Json))),
        List.append_assoc]
    · intro s hs hne
      rw [hs] at hdf
      simp [truthy, hne] at hdf
    · intro s fn hfi hne hlk _
      have ht : truthy pd.featured_image = true := by
        simp [hfi, truthy, hne]
      have hfv : featuredValueT pd.featured_image imap pfx
          = Json.str (pfx ++ "/" ++ fn) := by
        simp [featuredValueT, featuredValueStr, hfi, hlk]
      rw [ht]
      by_cases hdesc : truthy pd.description <;>
        simp only [hdesc, if_true, if_false, hfv, List.nil_append,
          List.singleton_append] <;> rfl

/-- C6 witness: on a fully populated concrete record the eight keys
come out in order, the date is truncated to its calendar-date part and
the featured image is rewritten through the mapping. -/
theorem frontmatter_fields_witness :
    ∃ fm, post_to_markdown_frontmatter fullRecord
        [("https://x.com/f.jpg", "f.jpg")] "images" = .ok fm
      ∧ fm.map Prod.fst = ["title", "date", "url", "slug", "description",
          "featured_image", "authors", "tags"]
      ∧ jlookup fm "date" = some (Json.str "2024-03-01")
      ∧ jlookup fm "featured_image" = some (Json.str "images/f.jpg") := by
  obtain ⟨fm, hfm, hkeys, hdx, hfx⟩ := frontmatter_fields fullRecord
    [("https://x.com/f.jpg", "f.jpg")] "images"
    (fun _ => ⟨"2024-03-01T12:00:00Z", rfl⟩)
    (fun _ => ⟨"https://x.com/f.jpg", rfl⟩)
  refine ⟨fm, hfm, by rw [hkeys]; rfl, ?_, ?_⟩
  · rw [hdx "2024-03-01T12:00:00Z" rfl (by decide)]
    rfl
  · rw [hfx "https://x.com/f.jpg" "f.jpg" rfl (by decide) rfl (by decide)]
    rfl

/-- Setting an existing attribute makes the set value the one found. -/
theorem getAttr_setAttr (a : List (String × String)) (k v : String)
    (h : (getAttr a k).isSome) : getAttr (setAttr a k v) k = some v := by
  induction a with
  | nil => simp [getAttr] at h
  | cons kv rest ih =>
    obtain ⟨k0, v0⟩ := kv
    cases hk : (k0 == k) with
    | true => simp [setAttr, getAttr, hk]
    | false =>
      simp only [getAttr, hk] at h
      simp [setAttr, getAttr, hk, ih h]

/-- The per-image attribute rewrite acts as `srcRewrite` on the `src`
attribute. -/
theorem getAttr_rewriteSrcAttrs (imap : List (String × String)) (pfx : String)
    (a : List (String × String)) :
    getAttr (rewriteSrcAttrs imap pfx a) "src"
      = (getAttr a "src").map (srcRewrite imap pfx) := by
  unfold rewriteSrcAttrs
  cases h : getAttr a "src" with
  | none => simp [h]
  | some src =>
    by_cases hne : src = ""
    · subst hne
      simp only [if_neg (by simp : ¬("" != "") = true)]
      simp [h, srcRewrite]
      cases alookupS imap "" <;> simp
    · have hb : (src != "") = true := by simp [hne]
      simp only [hb, if_true]
      cases hl : alookupS imap src with
      | none => simp [h, srcRewrite, hl]
      | some fn =>
        rw [getAttr_setAttr a "src" (pfx ++ "/" ++ fn) (by simp [h])]
        simp [srcRewrite, hl, hne]

mutual
/-- Image sources after the unguarded rewrite of one node. -/
theorem imgSrcsC_rewrite (imap : List (String × String)) (pfx : String)
    (n : Node) : imgSrcsC (rewriteImgsC imap pfx n)
      = (imgSrcsC n).map (Option.map (srcRewrite imap pfx)) := by
  cases n with
  | text s => rfl
  | elem t a cs =>
    by_cases ht : t == "img" <;>
      simp [rewriteImgsC, imgSrcsC, ht, imgSrcsL_rewrite imap pfx cs,
        getAttr_rewriteSrcAttrs]
/-- Image sources after the unguarded rewrite of a forest. -/
theorem imgSrcsL_rewrite (imap : List (String × String)) (pfx : String)
    (l : List Node) : imgSrcsL (rewriteImgsL imap pfx l)
      = (imgSrcsL l).map (Option.map (srcRewrite imap pfx)) := by
  cases l with
  | nil => rfl
  | cons c cs =>
    simp [rewriteImgsL, imgSrcsL, imgSrcsC_rewrite imap pfx c,
      imgSrcsL_rewrite imap pfx cs]
end

/-- C7 amended: with no (or an empty) mapping the body is returned
unchanged; in general every inline image source that is a nonempty key
of the mapping is rewritten to `pfx/<local-filename>` and every other
source (unmapped, or the empty string even when `""` is a mapping key)
is left verbatim. -/
theorem image_rewrite_srcs (content : List Node) (imap : List (String × String))
    (pfx : String) :
    (imap = [] → rewrite_content_images content imap pfx = content)
    ∧ imgSrcsL (rewrite_content_images content imap pfx)
        = (imgSrcsL content).map (Option.map (srcRewrite imap pfx)) := by
  constructor
  · intro h
    simp [rewrite_content_images, h]
  · by_cases hc : content.isEmpty
    · rw [List.isEmpty_iff] at hc
      subst hc
      simp [rewrite_content_images, imgSrcsL]
    · by_cases hi : imap.isEmpty
      · rw [List.isEmpty_iff] at hi
        subst hi
        have hf : srcRewrite [] pfx = fun s => s := by
          funext s
          simp [srcRewrite, alookupS]
        simp [rewrite_content_images, hf]
      · simp [rewrite_content_images, hc, hi, imgSrcsL_rewrite]

/-- C7 witness: a mapped source is rewritten to the local path, an
unmapped one is kept, on a concrete two-image body. -/
theorem image_rewrite_srcs_witness :
    rewrite_content_images
        [.elem "p" [] [.elem "img" [("src", "https://x.com/a.jpg")] [],
          .elem "img" [("src", "https://x.com/b.jpg")] []]]
        [] "images"
      = [.elem "p" [] [.elem "img" [("src", "https://x.com/a.jpg")] [],
          .elem "img" [("src", "https://x.com/b.jpg")] []]]
    ∧ imgSrcsL (rewrite_content_images
        [.elem "p" [] [.elem "img" [("src", "https://x.com/a.jpg")] [],
          .elem "img" [("src", "https://x.com/b.jpg")] []]]
        [("https://x.com/a.jpg", "a.jpg")] "images")
      = [some "images/a.jpg", some "https://x.com/b.jpg"] := by
  constructor
  · exact (image_rewrite_srcs
      [.elem "p" [] [.elem "img" [("src", "https://x.com/a.jpg")] [],
        .elem "img" [("src", "https://x.com/b.jpg")] []]] [] "images").1 rfl
  · rw [(image_rewrite_srcs _ _ _).2]
    decide

/-- C7 counterexample: an image whose `src` is the empty string is not
rewritten even when `""` is a key of the mapping (the code's `if src`
truthiness guard skips it), contradicting the claim for that image. -/
theorem empty_src_key_not_rewritten :
    rewrite_content_images [.elem "img" [("src", "")] []] [("", "x.jpg")] "images"
        = [.elem "img" [("src", "")] []]
    ∧ imgSrcsL (rewrite_content_images [.elem "img" [("src", "")] []]
        [("", "x.jpg")] "images") = [some ""]
    ∧ some "" ≠ some ("images" ++ "/" ++ "x.jpg") :=
  ⟨rfl, rfl, by decide⟩

/-- Running a pass over a single-path snapshot is just that step. -/
theorem runSteps_single (step : Node → List Nat → Node × (List Nat → Option (List Nat)))
    (t : Node) (q : List Nat) : runSteps step t [q] = (step t q).1 := rfl

/-- C5: in the boilerplate-link pass, for an anchor with boilerplate
text inside a paragraph: while the enclosing text stays under 200
characters the pass ascends (up to 3 levels, shown by the sole-child
chain where the fourth ancestor survives), and the reached block is
removed only when its text stays under 300 characters; at 300 or more
only the anchor itself is removed and the paragraph is preserved. -/
theorem boilerplate_link_containment (s1 at2 s2 h : String)
    (hb : anyBoilerLink (pyStripL at2.data) = true) :
    ((pyStripL s1.data).length + (pyStripL at2.data).length
        + (pyStripL s2.data).length < 200 →
      linkPass (linkFam s1 at2 s2 h) = .elem "div" [("id", "content-blocks")] [])
    ∧ (200 ≤ (pyStripL s1.data).length + (pyStripL at2.data).length
          + (pyStripL s2.data).length →
       (pyStripL s1.data).length + (pyStripL at2.data).length
          + (pyStripL s2.data).length < 300 →
      linkPass (linkFam s1 at2 s2 h)
        = .elem "div" [("id", "content-blocks")] [.elem "div" [] []])
    ∧ (300 ≤ (pyStripL s1.data).length + (pyStripL at2.data).length
          + (pyStripL s2.data).length →
      linkPass (linkFam s1 at2 s2 h)
        = .elem "div" [("id", "content-blocks")]
            [.elem "div" [] [.elem "p" [] [.text s1, .text s2]]])
    ∧ ((pyStripL at2.data).length < 200 →
      linkPass (linkDeep at2 h)
        = .elem "div" [("id", "content-blocks")] [.elem "div" [] []]) := by
  have hfind1 : findTag "a" (linkFam s1 at2 s2 h) = [[0, 0, 1]] := rfl
  have hT1 : linkPass (linkFam s1 at2 s2 h)
      = (linkStep (linkFam s1 at2 s2 h) [0, 0, 1]).1 := by
    unfold linkPass
    rw [hfind1, runSteps_single]
  have hget : getAt (linkFam s1 at2 s2 h) [0, 0, 1]
      = some (.elem "a" [("href", h)] [.text at2]) := rfl
  have hanch : nodeTextL (Node.elem "a" [("href", h)] [.text at2])
      = pyStripL at2.data ++ [] := rfl
  have htext2 : textAt (linkFam s1 at2 s2 h) [0, 0]
      = pyStripL s1.data ++ ((pyStripL at2.data ++ []) ++ (pyStripL s2.data ++ [])) := rfl
  have htext1 : textAt (linkFam s1 at2 s2 h) [0]
      = (pyStripL s1.data ++ ((pyStripL at2.data ++ []) ++ (pyStripL s2.data ++ []))) ++ [] :=
    rfl
  have hlen2 : (textAt (linkFam s1 at2 s2 h) [0, 0]).length
      = (pyStripL s1.data).length + (pyStripL at2.data).length
        + (pyStripL s2.data).length := by
    rw [htext2]; simp [List.length_append]; omega
  have hlen1 : (textAt (linkFam s1 at2 s2 h) [0]).length
      = (pyStripL s1.data).length + (pyStripL at2.data).length
        + (pyStripL s2.data).length := by
    rw [htext1]; simp [List.length_append]; omega
  have hdl : ([0, 0, 1] : List Nat).dropLast = [0, 0] := rfl
  refine ⟨?_, ?_, ?_, ?_⟩
  · intro h200
    have c1 : (textAt (linkFam s1 at2 s2 h) [0, 0]).length < 200 := by
      rw [hlen2]; omega
    have hasc : linkAscend (linkFam s1 at2 s2 h) [0, 0] 3 = [0] := by
      simp only [linkAscend, show ([0, 0] : List Nat).dropLast = [0] from rfl,
        show ([0] : List Nat).dropLast = ([] : List Nat) from rfl, c1]
      norm_num
    rw [hT1]
    simp only [linkStep, hget, hdl, hasc]
    rw [hanch, List.append_nil, hb]
    simp only [if_true]
    rw [if_pos ⟨by simp, by rw [hlen1]; omega⟩]
    rfl
  · intro h200 h300
    have c1 : ¬(textAt (linkFam s1 at2 s2 h) [0, 0]).length < 200 := by
      rw [hlen2]; omega
    have hasc : linkAscend (linkFam s1 at2 s2 h) [0, 0] 3 = [0, 0] := by
      simp only [linkAscend, show ([0, 0] : List Nat).dropLast = [0] from rfl, c1]
      norm_num
    rw [hT1]
    simp only [linkStep, hget, hdl, hasc]
    rw [hanch, List.append_nil, hb]
    simp only [if_true]
    rw [if_pos ⟨by simp, by rw [hlen2]; omega⟩]
    rfl
  · intro h300
    have c1 : ¬(textAt (linkFam s1 at2 s2 h) [0, 0]).length < 200 := by
      rw [hlen2]; omega
    have hasc : linkAscend (linkFam s1 at2 s2 h) [0, 0] 3 = [0, 0] := by
      simp only [linkAscend, show ([0, 0] : List Nat).dropLast = [0] from rfl, c1]
      norm_num
    rw [hT1]
    simp only [linkStep, hget, hdl, hasc]
    rw [hanch, List.append_nil, hb]
    simp only [if_true]
    rw [if_neg (fun hc => absurd hc.2 (by rw [hlen2]; omega))]
    rfl
  · intro h200
    have hfind2 : findTag "a" (linkDeep at2 h) = [[0, 0, 0, 0, 0, 0]] := rfl
    have hT2 : linkPass (linkDeep at2 h)
        = (linkStep (linkDeep at2 h) [0, 0, 0, 0, 0, 0]).1 := by
      unfold linkPass
      rw [hfind2, runSteps_single]
    have hget2 : getAt (linkDeep at2 h) [0, 0, 0, 0, 0, 0]
        = some (.elem "a" [("href", h)] [.text at2]) := rfl
    have hdl2 : ([0, 0, 0, 0, 0, 0] : List Nat).dropLast = [0, 0, 0, 0, 0] := rfl
    have ht5 : textAt (linkDeep at2 h) [0, 0, 0, 0, 0]
        = (pyStripL at2.data ++ []) ++ [] := rfl
    have ht4 : textAt (linkDeep at2 h) [0, 0, 0, 0]
        = ((pyStripL at2.data ++ []) ++ []) ++ [] := rfl
    have ht3 : textAt (linkDeep at2 h) [0, 0, 0]
        = (((pyStripL at2.data ++ []) ++ []) ++ []) ++ [] := rfl
    have ht2x : textAt (linkDeep at2 h) [0, 0]
        = ((((pyStripL at2.data ++ []) ++ []) ++ []) ++ []) ++ [] := rfl
    have c5 : (textAt (linkDeep at2 h) [0, 0, 0, 0, 0]).length < 200 := by
      rw [ht5]; simp; omega
    have c4 : (textAt (linkDeep at2 h) [0, 0, 0, 0]).length < 200 := by
      rw [ht4]; simp; omega
    have c3 : (textAt (linkDeep at2 h) [0, 0, 0]).length < 200 := by
      rw [ht3]; simp; omega
    have c2x : (textAt (linkDeep at2 h) [0, 0]).length < 300 := by
      rw [ht2x]; simp; omega
    have hasc : linkAscend (linkDeep at2 h) [0, 0, 0, 0, 0] 3 = [0, 0] := by
      simp only [linkAscend,
        show ([0, 0, 0, 0, 0] : List Nat).dropLast = [0, 0, 0, 0] from rfl,
        show ([0, 0, 0, 0] : List Nat).dropLast = [0, 0, 0] from rfl,
        show ([0, 0, 0] : List Nat).dropLast = [0, 0] from rfl, c5, c4, c3]
      norm_num
    rw [hT2]
    simp only [linkStep, hget2, hdl2, hasc]
    rw [hanch, List.append_nil, hb]
    simp only [if_true]
    rw [if_pos ⟨by simp, c2x⟩]
    rfl

/-- C5 witness: a subscribe link inside a 300-plus-character paragraph
is removed alone, the paragraph surviving. -/
theorem boilerplate_link_containment_witness :
    anyBoilerLink (pyStripL "Subscribe now".data) = true
    ∧ 300 ≤ (pyStripL c5Long.data).length
        + (pyStripL "Subscribe now".data).length + (pyStripL "".data).length
    ∧ linkPass (linkFam c5Long "Subscribe now" "" "https://u.example")
        = .elem "div" [("id", "content-blocks")]
            [.elem "div" [] [.elem "p" [] [.text c5Long, .text ""]]] := by
  have hb : anyBoilerLink (pyStripL "Subscribe now".data) = true := by decide
  have hlong : 300 ≤ (pyStripL c5Long.data).length
      + (pyStripL "Subscribe now".data).length + (pyStripL "".data).length := by
    decide
  exact ⟨hb, hlong, (boilerplate_link_containment c5Long "Subscribe now" ""
    "https://u.example" hb).2.2.1 hlong⟩

/-- C9 witness: two concrete pages with very different content yield
the same slug and URL fields for the same post URL. -/
theorem slug_url_depend_only_on_url_witness :
    (mkPost [("headline", Json.str "Hello")] richMetaPage "https://ex.com/p/alpha").slug
        = (mkPost [] emptyRawPage "https://ex.com/p/alpha").slug
    ∧ (mkPost [("headline", Json.str "Hello")] richMetaPage "https://ex.com/p/alpha").slug
        = slugOfUrl "https://ex.com/p/alpha"
    ∧ (mkPost [("headline", Json.str "Hello")] richMetaPage "https://ex.com/p/alpha").url
        = "https://ex.com/p/alpha" := by
  have h := slug_url_depend_only_on_url "https://ex.com/p/alpha" richMetaPage
    emptyRawPage (mkPost [("headline", Json.str "Hello")] richMetaPage "https://ex.com/p/alpha")
    (mkPost [] emptyRawPage "https://ex.com/p/alpha") rfl rfl
  exact ⟨h.1.1, h.1.2.2.1, h.1.2.2.2⟩

mutual
theorem findTextsC_clean (pat : String → Bool) (n : Node) (i : Nat)
    (h : textCleanC pat n = true) : findTextsC pat n i = [] := by
  cases n with
  | text s =>
    simp only [textCleanC, Bool.not_eq_true'] at h
    simp [findTextsC, h]
  | elem t a cs =>
    simp only [textCleanC] at h
    simp [findTextsC, findTextsL_clean pat cs 0 h]
theorem findTextsL_clean (pat : String → Bool) (l : List Node) (i : Nat)
    (h : textCleanL pat l = true) : findTextsL pat l i = [] := by
  cases l with
  | nil => rfl
  | cons c cs =>
    simp only [textCleanL, Bool.and_eq_true] at h
    simp [findTextsL, findTextsC_clean pat c i h.1, findTextsL_clean pat cs (i + 1) h.2]
end

theorem findTextsL_append (pat : String → Bool) (a b : List Node) (i : Nat) :
    findTextsL pat (a ++ b) i = findTextsL pat a i ++ findTextsL pat b (i + a.length) := by
  induction a generalizing i with
  | nil => simp [findTextsL]
  | cons c cs ih =>
    rw [List.cons_append,
      show findTextsL pat (c :: (cs ++ b)) i
        = findTextsC pat c i ++ findTextsL pat (cs ++ b) (i + 1) from rfl,
      ih (i + 1),
      show findTextsL pat (c :: cs) i
        = findTextsC pat c i ++ findTextsL pat cs (i + 1) from rfl,
      List.append_assoc, List.length_cons,
      show i + 1 + cs.length = i + (cs.length + 1) from by omega]

theorem elemCountL_append (a b : List Node) :
    elemCountL (a ++ b) = elemCountL a + elemCountL b := by
  induction a with
  | nil => simp [elemCountL]
  | cons c cs ih =>
    cases c <;> simp [elemCountL, ih]
    omega

theorem findTexts_footFam (pat : String → Bool) (pre post : List Node) (t : String)
    (hpre : textCleanL pat pre = true) (hpost : textCleanL pat post = true) :
    findTexts pat (footFam pre post t)
      = if pat t then [[0, pre.length, 0]] else [] := by
  have h1 : findTextsL pat (pre ++ .elem "p" [] [.text t] :: post) 0
      = findTextsL pat [.elem "p" [] [.text t]] pre.length
        ++ findTextsL pat post (pre.length + 1) := by
    rw [show (pre ++ Node.elem "p" [] [.text t] :: post)
        = pre ++ ([Node.elem "p" [] [.text t]] ++ post) from by simp,
      findTextsL_append, findTextsL_append, findTextsL_clean pat pre 0 hpre]
    simp [Nat.add_comm]
  rw [show findTexts pat (footFam pre post t)
      = (findTextsL pat (pre ++ .elem "p" [] [.text t] :: post) 0).map
          (fun q => 0 :: q) ++ [] from rfl, h1,
    findTextsL_clean pat post (pre.length + 1) hpost]
  by_cases hp : pat t = true
  · simp [findTextsL, findTextsC, hp]
  · simp only [Bool.not_eq_true] at hp
    simp [findTextsL, findTextsC, hp]

theorem findTexts_footFamTop (pat : String → Bool) (pre post : List Node) (t : String)
    (hpre : textCleanL pat pre = true) (hpost : textCleanL pat post = true) :
    findTexts pat (footFamTop pre post t)
      = if pat t then [[pre.length, 0]] else [] := by
  have h1 : findTextsL pat (pre ++ .elem "p" [] [.text t] :: post) 0
      = findTextsL pat [.elem "p" [] [.text t]] pre.length
        ++ findTextsL pat post (pre.length + 1) := by
    rw [show (pre ++ Node.elem "p" [] [.text t] :: post)
        = pre ++ ([Node.elem "p" [] [.text t]] ++ post) from by simp,
      findTextsL_append, findTextsL_append, findTextsL_clean pat pre 0 hpre]
    simp [Nat.add_comm]
  rw [show findTexts pat (footFamTop pre post t)
      = findTextsL pat (pre ++ .elem "p" [] [.text t] :: post) 0 from rfl, h1,
    findTextsL_clean pat post (pre.length + 1) hpost]
  by_cases hp : pat t = true
  · simp [findTextsL, findTextsC, hp]
  · simp only [Bool.not_eq_true] at hp
    simp [findTextsL, findTextsC, hp]

theorem footerStep_footFam (pre post : List Node) (t : String)
    (hne : 1 ≤ elemCountL pre) :
    (footerStep (footFam pre post t) [0, pre.length, 0]).1
      = .elem "div" [("id", "content-blocks")] [.elem "div" [] pre] := by
  have hcount : 1 < elemCountAt (footFam pre post t) [0] := by
    rw [show elemCountAt (footFam pre post t) [0]
        = elemCountL (pre ++ .elem "p" [] [.text t] :: post) from rfl,
      elemCountL_append]
    simp [elemCountL]
    omega
  have hasc : footAscend (footFam pre post t) [0, pre.length] 10
      = [0, pre.length] := by
    simp only [footAscend, List.length_cons, List.length_nil]
    rw [if_neg (by omega), if_pos (by
      rw [show ([0, pre.length] : List Nat).dropLast = [0] from rfl]
      exact hcount)]
  rw [show (footerStep (footFam pre post t) [0, pre.length, 0])
      = (let n := footAscend (footFam pre post t) [0, pre.length] 10
         if 2 ≤ n.length then
           (truncateAt (footFam pre post t) n.dropLast (n.getLastD 0),
             adjustTrunc n.dropLast (n.getLastD 0))
         else (footFam pre post t, some)) from rfl]
  simp only [hasc]
  rw [if_pos (by simp)]
  show truncateAt (footFam pre post t) [0] pre.length = _
  rw [show truncateAt (footFam pre post t) [0] pre.length
      = .elem "div" [("id", "content-blocks")]
          [.elem "div" [] ((pre ++ .elem "p" [] [.text t] :: post).take pre.length)]
    from rfl]
  rw [List.take_left]

theorem footerStep_footFamTop (pre post : List Node) (t : String) :
    (footerStep (footFamTop pre post t) [pre.length, 0]).1 = footFamTop pre post t := by
  have hasc : footAscend (footFamTop pre post t) [pre.length] 10 = [pre.length] := by
    simp only [footAscend, List.length_cons, List.length_nil]
    rw [if_pos (by omega)]
  rw [show footerStep (footFamTop pre post t) [pre.length, 0]
      = (let n := footAscend (footFamTop pre post t) [pre.length] 10
         if 2 ≤ n.length then
           (truncateAt (footFamTop pre post t) n.dropLast (n.getLastD 0),
             adjustTrunc n.dropLast (n.getLastD 0))
         else (footFamTop pre post t, some)) from rfl]
  simp only [hasc]
  rw [if_neg (by simp)]

theorem foldFoot_clean (pats : List (String → Bool)) (pre : List Node)
    (hpre : ∀ pat ∈ pats, textCleanL pat pre = true) :
    pats.foldl (fun tr pat => runSteps footerStep tr (findTexts pat tr))
      (.elem "div" [("id", "content-blocks")] [.elem "div" [] pre])
    = .elem "div" [("id", "content-blocks")] [.elem "div" [] pre] := by
  induction pats with
  | nil => rfl
  | cons p ps ih =>
    have hfind : findTexts p (Node.elem "div" [("id", "content-blocks")]
        [.elem "div" [] pre]) = [] := by
      rw [show findTexts p (Node.elem "div" [("id", "content-blocks")]
          [.elem "div" [] pre])
        = (findTextsL p pre 0).map (fun q => 0 :: q) ++ [] from rfl,
        findTextsL_clean p pre 0 (hpre p (List.mem_cons_self _ _))]
      rfl
    simp only [List.foldl_cons, hfind]
    rw [show runSteps footerStep (Node.elem "div" [("id", "content-blocks")]
        [.elem "div" [] pre]) [] = Node.elem "div" [("id", "content-blocks")]
        [.elem "div" [] pre] from rfl]
    exact ih (fun pat h => hpre pat (List.mem_cons_of_mem p h))

theorem foldFoot_footFam (pats : List (String → Bool)) (pre post : List Node)
    (t : String)
    (hpre : ∀ pat ∈ pats, textCleanL pat pre = true)
    (hpost : ∀ pat ∈ pats, textCleanL pat post = true)
    (hne : 1 ≤ elemCountL pre)
    (hmatch : pats.any (fun pat => pat t) = true) :
    pats.foldl (fun tr pat => runSteps footerStep tr (findTexts pat tr))
      (footFam pre post t)
    = .elem "div" [("id", "content-blocks")] [.elem "div" [] pre] := by
  induction pats with
  | nil => simp at hmatch
  | cons p ps ih =>
    have hfind := findTexts_footFam p pre post t
      (hpre p (List.mem_cons_self _ _)) (hpost p (List.mem_cons_self _ _))
    by_cases hp : p t = true
    · rw [hp, if_pos rfl] at hfind
      simp only [List.foldl_cons]
      rw [hfind, runSteps_single, footerStep_footFam pre post t hne]
      exact foldFoot_clean ps pre (fun pat h => hpre pat (List.mem_cons_of_mem p h))
    · simp only [Bool.not_eq_true] at hp
      rw [hp] at hfind
      simp only [Bool.false_eq_true, if_false] at hfind
      simp only [List.foldl_cons]
      rw [hfind, show runSteps footerStep (footFam pre post t) []
          = footFam pre post t from rfl]
      refine ih (fun pat h => hpre pat (List.mem_cons_of_mem p h))
        (fun pat h => hpost pat (List.mem_cons_of_mem p h)) ?_
      simpa [hp] using hmatch

theorem foldFoot_footFamTop (pats : List (String → Bool)) (pre post : List Node)
    (t : String)
    (hpre : ∀ pat ∈ pats, textCleanL pat pre = true)
    (hpost : ∀ pat ∈ pats, textCleanL pat post = true) :
    pats.foldl (fun tr pat => runSteps footerStep tr (findTexts pat tr))
      (footFamTop pre post t)
    = footFamTop pre post t := by
  induction pats with
  | nil => rfl
  | cons p ps ih =>
    have hfind := findTexts_footFamTop p pre post t
      (hpre p (List.mem_cons_self _ _)) (hpost p (List.mem_cons_self _ _))
    have hstep : runSteps footerStep (footFamTop pre post t)
        (findTexts p (footFamTop pre post t)) = footFamTop pre post t := by
      by_cases hp : p t = true
      · rw [hfind, if_pos hp, runSteps_single, footerStep_footFamTop]
      · simp only [Bool.not_eq_true] at hp
        rw [hfind, hp]
        simp only [Bool.false_eq_true, if_false]
        rfl
    simp only [List.foldl_cons, hstep]
    exact ih (fun pat h => hpre pat (List.mem_cons_of_mem p h))
      (fun pat h => hpost pat (List.mem_cons_of_mem p h))

/-- C3 amended: when the footer-trigger paragraph's flow-level node is
not a direct child of the content container, the footer pass removes it
and all its following siblings, leaving the content before it unchanged
(first conjunct); when the ascent reaches a direct child of the
container, the pass removes nothing at all (second conjunct). -/
theorem footer_removal_below_top_level (pre post : List Node) (t : String)
    (hmatch : anyFooterText t = true)
    (hpre : footerPatterns.all (fun pat => textCleanL pat pre) = true)
    (hpost : footerPatterns.all (fun pat => textCleanL pat post) = true)
    (hne : 1 ≤ elemCountL pre) :
    footerPass (footFam pre post t)
      = .elem "div" [("id", "content-blocks")] [.elem "div" [] pre]
    ∧ footerPass (footFamTop pre post t) = footFamTop pre post t := by
  rw [List.all_eq_true] at hpre hpost
  exact ⟨foldFoot_footFam footerPatterns pre post t
      (fun pat h => hpre pat h) (fun pat h => hpost pat h) hne hmatch,
    foldFoot_footFamTop footerPatterns pre post t
      (fun pat h => hpre pat h) (fun pat h => hpost pat h)⟩

/-- C3 witness: on a concrete nested body the trigger paragraph and all
its following siblings are removed and the intro survives, while the
same content placed directly under the container is left unchanged. -/
theorem footer_removal_below_top_level_witness :
    footerPass (footFam c3pre c3post "There are 3 ways I can help you today.")
      = .elem "div" [("id", "content-blocks")] [.elem "div" [] c3pre]
    ∧ footerPass (footFamTop c3pre c3post "There are 3 ways I can help you today.")
      = footFamTop c3pre c3post "There are 3 ways I can help you today." :=
  footer_removal_below_top_level c3pre c3post
    "There are 3 ways I can help you today."
    (by decide) (by decide) (by decide) (by decide)

/-- C3 counterexample: a footer-trigger phrase occurs mid-document, yet
the footer pass removes neither its paragraph nor the following
sibling, because the reached flow-level node is a direct child of the
container (`node.parent != soup_content` fails). -/
theorem footer_trigger_at_top_level_not_removed :
    anyFooterText "There are 3 ways I can help you today." = true
    ∧ footerPass footerEx = footerEx :=
  ⟨by decide, rfl⟩

end Beehiiv

